import Mathlib

/-!
Verification development for the personal-assistant backend.

Shallow embedding of the task scheduling / completion logic
(`app/api/tasks.py`), the knowledge chunking and listing logic
(`app/api/knowledge.py`) and the retrieval / context-assembly logic
(`app/api/chat.py`).  Dates are modelled as day ordinals (`Nat`),
date-times as microseconds since an epoch (`Nat`); a Python `datetime`
compares exactly like its microsecond count, `dt.date()` is division by
the number of microseconds per day.  The relational store is modelled as
in-memory lists; SQLAlchemy `first()` becomes `List.find?`, filters
become `List.filter`.
-/

namespace Assistant

/-- `DEFAULT_USER_ID` constant shared by all routers. -/
def DEFAULT_USER_ID : String := "default"

/-- Microseconds per day: `datetime.max.time()` is one microsecond short
of the next midnight. -/
def usecPerDay : Nat := 86400000000

/-- `datetime.combine(d, datetime.min.time())` — start of day `d`. -/
def combineMin (d : Nat) : Nat := d * usecPerDay

/-- `datetime.combine(d, datetime.max.time())` — last microsecond of day `d`. -/
def combineMax (d : Nat) : Nat := d * usecPerDay + (usecPerDay - 1)

/-- `dt.date()` — the calendar date of a date-time. -/
def dtDate (dt : Nat) : Nat := dt / usecPerDay

/-- Python `str.lower()` (ASCII fragment, as used by the sort key and
tokenizer). -/
def lowerStr (s : String) : String := String.mk (s.data.map Char.toLower)

/-- ORM row of table `tasks` (`app/db/models.py`, class `Task`). -/
structure Task where
  id : Nat
  user_id : String
  title : String
  notes : Option String
  priority : Nat
  kind : String
  due_date : Option Nat
  start_date : Option Nat
  rrule : Option String
deriving DecidableEq

/-- ORM row of table `task_completions` (class `TaskCompletion`). -/
structure TaskCompletion where
  user_id : String
  task_id : Nat
  occurrence_date : Nat
  completed_at : Nat
deriving DecidableEq

/-- The tasks portion of the relational store. -/
structure TasksDB where
  tasks : List Task
  completions : List TaskCompletion
deriving DecidableEq

/-- The error taxonomy surfaced by the task endpoints
(`HTTPException(404, …)` / `HTTPException(400, …)`). -/
inductive ApiError where
  | notFound (detail : String)
  | invalidArgument (detail : String)
deriving DecidableEq

/-- Response payload of `POST /tasks/{id}/complete`; `already` records
whether the `"already": True` key was present. -/
structure CompleteResp where
  already : Bool
  task_id : Nat
  occurrence_date : Nat
deriving DecidableEq

/-- `db.query(Task).filter(Task.id == task_id)` + user filter + `.first()`. -/
def findTask (db : TasksDB) (task_id : Nat) : Option Task :=
  db.tasks.find? (fun t => t.id == task_id && t.user_id == DEFAULT_USER_ID)

/-- `db.query(TaskCompletion).filter(task_id, occurrence_date)` + user
filter + `.first()`. -/
def findCompletion (db : TasksDB) (task_id occurrence_date : Nat) :
    Option TaskCompletion :=
  db.completions.find? (fun c =>
    c.task_id == task_id && c.occurrence_date == occurrence_date &&
      c.user_id == DEFAULT_USER_ID)

/-- Number of completion rows for `(DEFAULT_USER_ID, task_id, occurrence_date)`;
the schema's unique constraint `uq_task_occurrence` keeps this at most 1. -/
def countComp (db : TasksDB) (task_id occurrence_date : Nat) : Nat :=
  (db.completions.filter (fun c =>
    c.task_id == task_id && c.occurrence_date == occurrence_date &&
      c.user_id == DEFAULT_USER_ID)).length

/-- The one-off validation block of `complete_occurrence`
(`if task.rrule is None: …`). -/
def completeCheck (task : Task) (occurrence_date : Nat) : Except ApiError Unit :=
  match task.rrule with
  | some _ => .ok ()
  | none =>
    match task.due_date with
    | none => .error (.invalidArgument "one_off task sem due_date")
    | some dd =>
      if occurrence_date ≠ dd then
        .error (.invalidArgument "one_off so pode ser completada na propria due_date")
      else .ok ()

/-- `complete_occurrence` (`app/api/tasks.py`): look up the task, validate
the date for one-off tasks, then either report `already` or insert a new
completion row.  Returns the updated store with the response. -/
def complete_occurrence (db : TasksDB) (task_id occurrence_date now : Nat) :
    Except ApiError (TasksDB × CompleteResp) :=
  match findTask db task_id with
  | none => .error (.notFound "Task not found")
  | some task =>
    match completeCheck task occurrence_date with
    | .error e => .error e
    | .ok _ =>
      match findCompletion db task_id occurrence_date with
      | some _ => .ok (db, ⟨true, task_id, occurrence_date⟩)
      | none =>
        .ok ({ db with
                completions := db.completions ++
                  [⟨DEFAULT_USER_ID, task_id, occurrence_date, now⟩] },
             ⟨false, task_id, occurrence_date⟩)

/-- Row emitted by the window endpoints (`TaskOut` pydantic model). -/
structure TaskOut where
  id : Nat
  user_id : Option String
  title : String
  notes : Option String
  kind : String
  date : Nat
  rrule : Option String
  is_done : Bool
  priority : Nat
deriving DecidableEq

/-- Modelled from the spec: the external dateutil collaborator
(`rrulestr(rule, dtstart=…)`).  A parsed rule is represented by its
occurrence stream (list of date-times); `none` models the exception a
malformed rule string raises.  The argument is the rule string together
with the `dtstart` instant. -/
def RRuleEnv : Type := String → Nat → Option (List Nat)

/-- Modelled from the spec: dateutil `rule.between(lo, hi, inc=True)` —
"the ordered set of occurrence date-times falling within the window,
inclusive of both boundary instants". -/
def ruleBetween (occs : List Nat) (lo hi : Nat) : List Nat :=
  occs.filter (fun dt => lo ≤ dt && dt ≤ hi)

/-- Completion rows whose date falls in the window, reduced to the
`(task_id, occurrence_date)` pairs of `done_set`. -/
def doneSet (db : TasksDB) (s e : Nat) : List (Nat × Nat) :=
  (db.completions.filter (fun c =>
    s ≤ c.occurrence_date && c.occurrence_date ≤ e &&
      c.user_id == DEFAULT_USER_ID)).map (fun c => (c.task_id, c.occurrence_date))

/-- Filter of the one-off query: `rrule IS NULL`, `due_date` not null and
inside `[s, e]`, plus the user filter. -/
def oneOffPred (s e : Nat) (t : Task) : Bool :=
  t.rrule.isNone &&
    (match t.due_date with
     | some d => decide (s ≤ d) && decide (d ≤ e)
     | none => false) &&
    t.user_id == DEFAULT_USER_ID

/-- Emission of a one-off row: done-state membership and the `hide_done`
filter. -/
def oneOffOut (done_set : List (Nat × Nat)) (hide_done : Bool) (t : Task) :
    Option TaskOut :=
  match t.due_date with
  | none => none
  | some d =>
    let is_done := done_set.contains (t.id, d)
    if hide_done && is_done then none
    else some ⟨t.id, some t.user_id, t.title, t.notes, "one_off", d, none,
               is_done, t.priority⟩

/-- Filter of the recurring query: `rrule IS NOT NULL`, `start_date` not
null and `≤ e`, plus the user filter. -/
def recurringPred (e : Nat) (t : Task) : Bool :=
  t.rrule.isSome &&
    (match t.start_date with
     | some sd => decide (sd ≤ e)
     | none => false) &&
    t.user_id == DEFAULT_USER_ID

/-- Occurrence rows of one recurring task: parse the rule (a parse
exception yields no rows — the `except` clause skips the task), expand it
between start-of-day `s` and end-of-day `e` inclusive, take the calendar
date of each occurrence, and apply done-state / `hide_done` filtering. -/
def recurringOuts (env : RRuleEnv) (done_set : List (Nat × Nat))
    (hide_done : Bool) (s e : Nat) (t : Task) : List TaskOut :=
  match t.rrule, t.start_date with
  | some r, some sd =>
    match env r (combineMin sd) with
    | none => []
    | some occs =>
      (ruleBetween occs (combineMin s) (combineMax e)).filterMap (fun dt =>
        let od := dtDate dt
        let is_done := done_set.contains (t.id, od)
        if hide_done && is_done then none
        else some ⟨t.id, some t.user_id, t.title, t.notes, "recurring", od,
                   t.rrule, is_done, t.priority⟩)
  | _, _ => []

/-- Sort key of the final ordering: the lexicographic triple
`(date, priority, title.lower())`. -/
def sortKey (x : TaskOut) : Nat ×ₗ Nat ×ₗ String :=
  toLex (x.date, toLex (x.priority, lowerStr x.title))

/-- Boolean comparison handed to the sort, mirroring Python's tuple key
comparison in `results.sort(key=…)`. -/
def taskLe (a b : TaskOut) : Bool := decide (sortKey a ≤ sortKey b)

/-- `_window_tasks` (`app/api/tasks.py`): completions of the window, the
one-off rows, the expanded recurring rows, then the final sort by
`(date, priority, lowercased title)`. -/
def _window_tasks (env : RRuleEnv) (db : TasksDB) (s e : Nat)
    (hide_done : Bool) : List TaskOut :=
  let done_set := doneSet db s e
  let oneOuts := (db.tasks.filter (oneOffPred s e)).filterMap
    (oneOffOut done_set hide_done)
  let recOuts := (db.tasks.filter (recurringPred e)).flatMap
    (recurringOuts env done_set hide_done s e)
  (oneOuts ++ recOuts).mergeSort taskLe

/-- `TaskCreate` pydantic payload (fields the creation logic reads). -/
structure TaskCreate where
  title : String
  notes : Option String
  priority : Nat
  due_date : Option Nat
  rrule : Option String
  start_date : Option Nat
deriving DecidableEq

/-- Python truthiness of an `Optional[str]`: `None` and `""` are falsy. -/
def truthyStr : Option String → Bool
  | none => false
  | some s => !(s == "")

/-- `create_task` (`app/api/tasks.py`): a truthy `rrule` makes the task
recurring (with `start_date` defaulting to today and `due_date` cleared);
otherwise one-off (with `due_date` defaulting to `start_date` then
today, and `start_date` / `rrule` cleared).  `new_id` stands for the
autoincrement key. -/
def create_task (payload : TaskCreate) (today new_id : Nat) :
    Except ApiError Task :=
  let is_recurring := truthyStr payload.rrule
  if is_recurring then
    let start_date := some (payload.start_date.getD today)
    let rrule := payload.rrule
    if !truthyStr rrule then
      .error (.invalidArgument "rrule e obrigatorio para tarefas recorrentes")
    else
      .ok ⟨new_id, DEFAULT_USER_ID, payload.title, payload.notes,
           payload.priority, "recurring", none, start_date, rrule⟩
  else
    let due_date := some (((payload.due_date).orElse
      (fun _ => payload.start_date)).getD today)
    .ok ⟨new_id, DEFAULT_USER_ID, payload.title, payload.notes,
         payload.priority, "one_off", due_date, none, none⟩

/-- Clamp of `tasks_next`: `if days < 1 or days > 365: days = 14`. -/
def clampDaysNext (days : Int) : Int :=
  if days < 1 || days > 365 then 14 else days

/-- `tasks_next` (`GET /tasks/next`): window `[anchor, anchor + days - 1]`
after clamping `days`. -/
def tasks_next (env : RRuleEnv) (db : TasksDB) (days : Int) (anchor : Nat)
    (hide_done : Bool) : List TaskOut :=
  let days := clampDaysNext days
  _window_tasks env db anchor (anchor + (days - 1).toNat) hide_done

/-- Python `str.strip()` on a character list (whitespace at both ends). -/
def wsStrip (l : List Char) : List Char :=
  ((l.dropWhile Char.isWhitespace).reverse.dropWhile Char.isWhitespace).reverse

/-- `str.strip()` on a `String`. -/
def stripS (s : String) : String := String.mk (wsStrip s.data)

/-- The `while i < n` loop of `chunk_text`, fuel-indexed (each pass
advances `i` by at least `cs - ov ≥ 1`, so fuel `n + 1` suffices). -/
def chunkLoop (text : List Char) (n cs ov : Nat) : Nat → Nat → List (List Char)
  | _, 0 => []
  | i, fuel + 1 =>
    if i < n then
      let j := min n (i + cs)
      let chunk := wsStrip ((text.drop i).take (j - i))
      let rest := if j = n then [] else chunkLoop text n cs ov (j - ov) fuel
      if chunk = [] then rest else chunk :: rest
    else []

/-- `chunk_text` (`app/api/knowledge.py`): strip the input, clamp
`chunk_size` to at least 200, clamp `overlap` into `[0, chunk_size)` with
fallback `chunk_size // 4`, then emit stripped windows
`text[i : i + chunk_size]` stepping by `chunk_size - overlap`. -/
def chunk_text (text : List Char) (chunk_size : Int := 1100)
    (overlap : Int := 180) : List (List Char) :=
  let text := wsStrip text
  if text = [] then []
  else
    let cs : Int := if chunk_size < 200 then 200 else chunk_size
    let ov : Int := if overlap < 0 then 0 else overlap
    let ov : Int := if ov ≥ cs then max 0 (cs / 4) else ov
    chunkLoop text text.length cs.toNat ov.toNat 0 (text.length + 1)

/-- ORM row of table `knowledge_items` (fields the endpoints read). -/
structure KnowledgeItem where
  id : Nat
  user_id : String
  source : String
  file_path : String
  folder_date : Option String
  content_text : Option String
  updated_at : Nat
deriving DecidableEq

/-- `KnowledgeOut` response row of `GET /knowledge/items`. -/
structure KnowledgeOut where
  id : Nat
  source : String
  folder_date : Option String
  file_path : String
  updated_at : Nat
deriving DecidableEq

/-- `KnowledgeSearchOut` response row of `GET /knowledge/search`. -/
structure KnowledgeSearchOut where
  id : Nat
  folder_date : Option String
  file_path : String
  snippet : String
deriving DecidableEq

/-- Substring test on character lists (SQL `LIKE '%needle%'`, Python
`needle in hay`). -/
def containsSub (hay needle : List Char) : Bool :=
  (List.range (hay.length + 1)).any (fun i => needle.isPrefixOf (hay.drop i))

/-- Python `hay.find(needle)`: index of the first occurrence, `none` for
`-1`. -/
def firstIdxOf (hay needle : List Char) : Option Nat :=
  (List.range (hay.length + 1)).find? (fun i => needle.isPrefixOf (hay.drop i))

/-- Case-insensitive containment (`content_text.ilike('%q%')`). -/
def ilikeContains (text q : String) : Bool :=
  containsSub (lowerStr text).data (lowerStr q).data

/-- `ORDER BY updated_at DESC` as a Boolean comparison. -/
def updatedDescLe (a b : KnowledgeItem) : Bool := decide (b.updated_at ≤ a.updated_at)

/-- Clamp of `list_items`: `if limit < 1 or limit > 500: limit = 50`. -/
def clampLimitItems (limit : Int) : Int :=
  if limit < 1 || limit > 500 then 50 else limit

/-- `list_items` (`GET /knowledge/items`): clamp the limit, filter by
user, order by `updated_at` descending, truncate, project. -/
def list_items (db : List KnowledgeItem) (limit : Int) : List KnowledgeOut :=
  let limit := clampLimitItems limit
  (((db.filter (fun r => r.user_id == DEFAULT_USER_ID)).mergeSort
      updatedDescLe).take limit.toNat).map
    (fun i => ⟨i.id, i.source, i.folder_date, i.file_path, i.updated_at⟩)

/-- Snippet extraction of `search`: 80 characters before the first match
to 140 after, falling back to the first 220 characters. -/
def searchSnippet (text : String) (q : String) : String :=
  match firstIdxOf (lowerStr text).data (lowerStr q).data with
  | none => String.mk (text.data.take 220)
  | some idx =>
    let start := idx - 80
    let stop := min text.data.length (idx + 140)
    String.mk ((text.data.drop start).take (stop - start))

/-- Clamp of `search`: `if limit < 1 or limit > 50: limit = 10`. -/
def clampLimitSearch (limit : Int) : Int :=
  if limit < 1 || limit > 50 then 10 else limit

/-- `search` (`GET /knowledge/search`): clamp the limit, keep rows whose
text contains the query case-insensitively, order by recency, truncate,
attach snippets. -/
def search (db : List KnowledgeItem) (q : String) (limit : Int) :
    List KnowledgeSearchOut :=
  let limit := clampLimitSearch limit
  let rows := ((db.filter (fun r =>
      ilikeContains (r.content_text.getD "") q &&
        r.user_id == DEFAULT_USER_ID)).mergeSort updatedDescLe).take limit.toNat
  rows.map (fun r =>
    ⟨r.id, r.folder_date, r.file_path, searchSnippet (r.content_text.getD "") q⟩)

/-- Toggle of the token character class `[a-z0-9_]` (the query is lowered
first, so `a-z` suffices for letters). -/
def isTokChar (c : Char) : Bool :=
  (decide ('a' ≤ c) && decide (c ≤ 'z')) ||
    (decide ('0' ≤ c) && decide (c ≤ '9')) || c == '_'

/-- `re.findall(r"[a-z0-9_]+", …)`: maximal runs of token characters.
`acc` holds the current run reversed. -/
def runsAux : List Char → List Char → List (List Char)
  | [], acc => if acc = [] then [] else [acc.reverse]
  | c :: rest, acc =>
    if isTokChar c then runsAux rest (c :: acc)
    else if acc = [] then runsAux rest []
    else acc.reverse :: runsAux rest []

/-- The fixed stop-word set of `_tokenize`. -/
def stopWords : List String :=
  ["como", "resolvo", "erro", "no", "na", "pro", "para", "de", "do", "da",
   "um", "uma", "que", "o", "a", "e"]

/-- Order-preserving deduplication (`seen` set plus output list). -/
def dedupKeepOrder : List String → List String → List String
  | [], _ => []
  | t :: rest, seen =>
    if seen.contains t then dedupKeepOrder rest seen
    else t :: dedupKeepOrder rest (t :: seen)

/-- `_tokenize` (`app/api/chat.py`): lower the query, extract
`[a-z0-9_]+` runs of length ≥ 3 outside the stop-word set, append the
GCS/storage and 403 boost tokens when their triggers occur as substrings
of the lowered query, deduplicate preserving order, cap at 10. -/
def _tokenize (q : String) : List String :=
  let q_low := lowerStr q
  let tokens := (runsAux q_low.data []).map String.mk
  let tokens := tokens.filter (fun t => 3 ≤ t.length && !(stopWords.contains t))
  let tokens := tokens ++
    (if containsSub q_low.data "gcs".data ||
        containsSub q_low.data "bucket".data ||
        containsSub q_low.data "storage".data then
      ["bucket", "gcs", "iam", "permiss", "writer", "storage"]
    else []) ++
    (if containsSub q_low.data "403".data then
      ["forbidden", "permission", "permiss", "iam", "writer"]
    else [])
  (dedupKeepOrder tokens []).take 10

/-- `SuggestedMemory` response row of the chat retrieval. -/
structure SuggestedMemory where
  id : Nat
  file_path : String
  folder_date : Option String
  snippet : String
deriving DecidableEq

/-- Snippet loop of `_search_memory`: first token found in the lowered
text wins a window of 80 characters before to 140 after; if no token is
found the first 220 characters stand. -/
def memSnippet (text : String) : List String → String
  | [] => String.mk (text.data.take 220)
  | t :: rest =>
    match firstIdxOf (lowerStr text).data t.data with
    | some idx =>
      let start := idx - 80
      let stop := min text.data.length (idx + 140)
      String.mk ((text.data.drop start).take (stop - start))
    | none => memSnippet text rest

/-- `_search_memory` (`app/api/chat.py`): tokenize; with zero tokens
return nothing; otherwise keep records matching ANY token, order by
recency, truncate, attach snippets. -/
def _search_memory (db : List KnowledgeItem) (q : String) (limit : Nat) :
    List SuggestedMemory :=
  let tokens := _tokenize q
  if tokens = [] then []
  else
    let rows := ((db.filter (fun r =>
        r.user_id == DEFAULT_USER_ID &&
          tokens.any (fun t =>
            ilikeContains (r.content_text.getD "") t))).mergeSort
      updatedDescLe).take limit
    rows.map (fun r =>
      ⟨r.id, r.file_path, r.folder_date,
       memSnippet (r.content_text.getD "") tokens⟩)

/-- One record's piece in `_build_context_block`: the `[MEMORY …]` header
plus the stripped first 2000 characters of the body plus a newline. -/
def pieceOf (it : KnowledgeItem) : String :=
  "[MEMORY id=" ++ toString it.id ++ " file=" ++ it.file_path ++
    " folder=" ++ (match it.folder_date with | some s => s | none => "None") ++
    "]\n" ++ stripS (String.mk ((it.content_text.getD "").data.take 2000)) ++ "\n"

/-- The accumulation loop of `_build_context_block`: include pieces while
the running total stays within `max_chars`; the first overflowing record
stops the loop entirely. -/
def contextPieces (max_chars : Nat) : List KnowledgeItem → Nat → List String
  | [], _ => []
  | it :: rest, total =>
    let piece := pieceOf it
    if max_chars < total + piece.length then []
    else piece :: contextPieces max_chars rest (total + piece.length)

/-- `_build_context_block` (`app/api/chat.py`): join the included pieces
with the visible separator and strip the result. -/
def _build_context_block (items : List KnowledgeItem)
    (max_chars : Nat := 6000) : String :=
  stripS (String.intercalate "\n---\n" (contextPieces max_chars items 0))

/-! ## Concrete fixtures used by witness theorems -/

/-- A concrete one-off task (id 1, due day 5). -/
def taskOneOffW : Task := ⟨1, "default", "pay rent", none, 3, "one_off", some 5, none, none⟩

/-- A concrete recurring task (id 2, anchored at day 0). -/
def taskRecurringW : Task :=
  ⟨2, "default", "water plants", none, 2, "recurring", none, some 0, some "FREQ=DAILY"⟩

/-- A concrete store holding the two fixture tasks and no completions. -/
def dbW : TasksDB := ⟨[taskOneOffW, taskRecurringW], []⟩

/-- A fixture rule environment: `FREQ=DAILY` parses to a single
occurrence at its `dtstart`; every other string is malformed. -/
def envW : RRuleEnv := fun r sd => if r == "FREQ=DAILY" then some [sd] else none

/-- A fixture recurring task carrying a malformed rule string. -/
def taskBadW : Task :=
  ⟨4, "default", "broken rule", none, 3, "recurring", none, some 0, some "NONSENSE"⟩

/-! ## Helper lemmas -/

theorem taskLe_trans (a b c : TaskOut) (h1 : taskLe a b) (h2 : taskLe b c) :
    taskLe a c := by
  simp only [taskLe, decide_eq_true_eq] at *
  exact le_trans h1 h2

theorem taskLe_total (a b : TaskOut) : taskLe a b || taskLe b a := by
  simp only [taskLe, Bool.or_eq_true, decide_eq_true_eq]
  exact le_total _ _

theorem usecPerDay_pos : 0 < usecPerDay := by decide

theorem dtDate_window {dt s e : Nat} (h1 : combineMin s ≤ dt)
    (h2 : dt ≤ combineMax e) : s ≤ dtDate dt ∧ dtDate dt ≤ e := by
  constructor
  · rw [dtDate, Nat.le_div_iff_mul_le usecPerDay_pos]
    exact h1
  · have hlt : dt < (e + 1) * usecPerDay := by
      have : combineMax e < (e + 1) * usecPerDay := by
        rw [combineMax, Nat.succ_mul]
        have := usecPerDay_pos
        omega
      omega
    have := (Nat.div_lt_iff_lt_mul usecPerDay_pos).mpr hlt
    rw [dtDate]
    omega

theorem countComp_pos_of_findCompletion {db : TasksDB} {tid d : Nat}
    {c : TaskCompletion} (h : findCompletion db tid d = some c) :
    1 ≤ countComp db tid d := by
  have hmem := List.mem_of_find?_eq_some h
  have hp := List.find?_some h
  have : c ∈ db.completions.filter (fun c =>
      c.task_id == tid && c.occurrence_date == d &&
        c.user_id == DEFAULT_USER_ID) :=
    List.mem_filter.mpr ⟨hmem, hp⟩
  have := List.length_pos_of_mem this
  simpa [countComp] using this

theorem countComp_eq_zero_of_findCompletion_none {db : TasksDB} {tid d : Nat}
    (h : findCompletion db tid d = none) : countComp db tid d = 0 := by
  rw [countComp, List.length_eq_zero]
  rw [findCompletion, List.find?_eq_none] at h
  exact List.filter_eq_nil_iff.mpr h

/-! ## Claim theorems -/

/-- C3: `complete_occurrence` fails with NotFound when no task with the
given id exists for the caller; for a one-off task (no rrule) it fails
with InvalidArgument unless the supplied date equals the due date; for a
recurring task any date passes validation and the call succeeds. -/
theorem complete_occurrence_validation (db : TasksDB) (tid d now : Nat) :
    (findTask db tid = none →
      complete_occurrence db tid d now = .error (.notFound "Task not found")) ∧
    (∀ task, findTask db tid = some task → task.rrule = none →
      task.due_date ≠ some d →
      ∃ msg, complete_occurrence db tid d now = .error (.invalidArgument msg)) ∧
    (∀ task r, findTask db tid = some task → task.rrule = some r →
      ∃ out, complete_occurrence db tid d now = .ok out) := by
  refine ⟨?_, ?_, ?_⟩
  · intro h
    simp [complete_occurrence, h]
  · intro task hfind hrr hdd
    rcases hdue : task.due_date with _ | dd
    · exact ⟨"one_off task sem due_date",
        by simp [complete_occurrence, hfind, completeCheck, hrr, hdue]⟩
    · have hne : d ≠ dd := fun h => hdd (by rw [hdue, h])
      exact ⟨"one_off so pode ser completada na propria due_date",
        by simp [complete_occurrence, hfind, completeCheck, hrr, hdue, hne]⟩
  · intro task r hfind hrr
    rcases hfc : findCompletion db tid d with _ | c
    · exact ⟨({ db with completions := db.completions ++
          [⟨DEFAULT_USER_ID, tid, d, now⟩] }, ⟨false, tid, d⟩),
        by simp [complete_occurrence, hfind, completeCheck, hrr, hfc]⟩
    · exact ⟨(db, ⟨true, tid, d⟩),
        by simp [complete_occurrence, hfind, completeCheck, hrr, hfc]⟩

/-- Witness for C3 at concrete stores: a missing id yields NotFound, a
one-off task completed off its due date yields InvalidArgument, and a
recurring task accepts an arbitrary date. -/
theorem complete_occurrence_validation_witness :
    (complete_occurrence dbW 99 3 0 = .error (.notFound "Task not found")) ∧
    (∃ msg, complete_occurrence dbW 1 4 0 = .error (.invalidArgument msg)) ∧
    (∃ out, complete_occurrence dbW 2 9 0 = .ok out) := by
  refine ⟨?_, ?_, ?_⟩
  · exact (complete_occurrence_validation dbW 99 3 0).1 (by decide)
  · exact (complete_occurrence_validation dbW 1 4 0).2.1 taskOneOffW
      (by decide) rfl (by decide)
  · exact (complete_occurrence_validation dbW 2 9 0).2.2 taskRecurringW
      "FREQ=DAILY" (by decide) rfl

/-- C9: a task created with a (truthy) rrule is recurring with populated
`start_date` and `rrule` and null `due_date`; one created without is
one-off with populated `due_date` and null `start_date` / `rrule` —
exactly one of the two shapes, never both. -/
theorem create_task_exclusivity (payload : TaskCreate) (today new_id : Nat) :
    (truthyStr payload.rrule = true →
      ∃ t, create_task payload today new_id = .ok t ∧ t.kind = "recurring" ∧
        t.start_date.isSome = true ∧ t.rrule.isSome = true ∧
        t.due_date = none) ∧
    (truthyStr payload.rrule = false →
      ∃ t, create_task payload today new_id = .ok t ∧ t.kind = "one_off" ∧
        t.due_date.isSome = true ∧ t.start_date = none ∧ t.rrule = none) := by
  constructor
  · intro h
    refine ⟨⟨new_id, DEFAULT_USER_ID, payload.title, payload.notes,
        payload.priority, "recurring", none,
        some (payload.start_date.getD today), payload.rrule⟩,
      by simp [create_task, h], rfl, rfl, ?_, rfl⟩
    rcases hr : payload.rrule with _ | s
    · rw [hr] at h; simp [truthyStr] at h
    · rfl
  · intro h
    exact ⟨⟨new_id, DEFAULT_USER_ID, payload.title, payload.notes,
        payload.priority, "one_off",
        some ((payload.due_date.orElse fun _ => payload.start_date).getD today),
        none, none⟩, by simp [create_task, h], rfl, rfl, rfl, rfl⟩

/-- Witness for C9: a payload with rrule `FREQ=MONTHLY;BYMONTHDAY=13`
yields a recurring task, one without yields a one-off task. -/
theorem create_task_exclusivity_witness :
    (∃ t, create_task ⟨"rent", none, 3, none,
        some "FREQ=MONTHLY;BYMONTHDAY=13", some 10⟩ 0 1 = .ok t ∧
      t.kind = "recurring" ∧ t.start_date.isSome = true ∧
      t.rrule.isSome = true ∧ t.due_date = none) ∧
    (∃ t, create_task ⟨"dentist", none, 2, some 7, none, none⟩ 0 2 = .ok t ∧
      t.kind = "one_off" ∧ t.due_date.isSome = true ∧ t.start_date = none ∧
      t.rrule = none) :=
  ⟨(create_task_exclusivity ⟨"rent", none, 3, none,
      some "FREQ=MONTHLY;BYMONTHDAY=13", some 10⟩ 0 1).1 (by decide),
   (create_task_exclusivity ⟨"dentist", none, 2, some 7, none, none⟩ 0 2).2
      (by decide)⟩

/-- C10: an out-of-range pagination limit is silently replaced by the
default, a value inside the permitted range, and the operation computes
the same result as with the replaced value — it never rejects. -/
theorem pagination_limit_clamped (limit : Int) :
    ((limit < 1 ∨ 500 < limit) →
      clampLimitItems limit = 50 ∧ 1 ≤ clampLimitItems limit ∧
        clampLimitItems limit ≤ 500 ∧
        ∀ db, list_items db limit = list_items db (clampLimitItems limit)) ∧
    ((limit < 1 ∨ 50 < limit) →
      clampLimitSearch limit = 10 ∧ 1 ≤ clampLimitSearch limit ∧
        clampLimitSearch limit ≤ 50 ∧
        ∀ db q, search db q limit = search db q (clampLimitSearch limit)) ∧
    ((limit < 1 ∨ 365 < limit) →
      clampDaysNext limit = 14 ∧ 1 ≤ clampDaysNext limit ∧
        clampDaysNext limit ≤ 365 ∧
        ∀ env db anchor hd, tasks_next env db limit anchor hd =
          tasks_next env db (clampDaysNext limit) anchor hd) := by
  refine ⟨?_, ?_, ?_⟩
  · intro h
    have hcl : clampLimitItems limit = 50 := by
      unfold clampLimitItems
      have hb : (decide (limit < 1) || decide (limit > 500)) = true := by
        rcases h with h | h <;> simp [h]
      rw [if_pos hb]
    refine ⟨hcl, by rw [hcl]; decide, by rw [hcl]; decide, ?_⟩
    intro db
    have : clampLimitItems (clampLimitItems limit) = clampLimitItems limit := by
      rw [hcl]; decide
    simp only [list_items, this]
  · intro h
    have hcl : clampLimitSearch limit = 10 := by
      unfold clampLimitSearch
      have hb : (decide (limit < 1) || decide (limit > 50)) = true := by
        rcases h with h | h <;> simp [h]
      rw [if_pos hb]
    refine ⟨hcl, by rw [hcl]; decide, by rw [hcl]; decide, ?_⟩
    intro db q
    have : clampLimitSearch (clampLimitSearch limit) = clampLimitSearch limit := by
      rw [hcl]; decide
    simp only [search, this]
  · intro h
    have hcl : clampDaysNext limit = 14 := by
      unfold clampDaysNext
      have hb : (decide (limit < 1) || decide (limit > 365)) = true := by
        rcases h with h | h <;> simp [h]
      rw [if_pos hb]
    refine ⟨hcl, by rw [hcl]; decide, by rw [hcl]; decide, ?_⟩
    intro env db anchor hd
    have : clampDaysNext (clampDaysNext limit) = clampDaysNext limit := by
      rw [hcl]; decide
    simp only [tasks_next, this]

/-- Witness for C10 at the out-of-range value 1000: every clamp lands on
its default inside the permitted range. -/
theorem pagination_limit_clamped_witness :
    (clampLimitItems 1000 = 50 ∧ 1 ≤ clampLimitItems 1000 ∧
      clampLimitItems 1000 ≤ 500 ∧
      ∀ db, list_items db 1000 = list_items db (clampLimitItems 1000)) ∧
    (clampLimitSearch 1000 = 10 ∧ 1 ≤ clampLimitSearch 1000 ∧
      clampLimitSearch 1000 ≤ 50 ∧
      ∀ db q, search db q 1000 = search db q (clampLimitSearch 1000)) ∧
    (clampDaysNext 1000 = 14 ∧ 1 ≤ clampDaysNext 1000 ∧
      clampDaysNext 1000 ≤ 365 ∧
      ∀ env db anchor hd, tasks_next env db 1000 anchor hd =
        tasks_next env db (clampDaysNext 1000) anchor hd) :=
  ⟨(pagination_limit_clamped 1000).1 (by decide),
   (pagination_limit_clamped 1000).2.1 (by decide),
   (pagination_limit_clamped 1000).2.2 (by decide)⟩

/-- C2: completing is idempotent.  If a first `complete` call succeeded
(whether or not it reported `already`), a second call for the same task
and date returns the `already` indicator, does not error, leaves the
store untouched, and exactly one completion row exists for the pair.
The hypothesis `countComp db tid d ≤ 1` is the schema's unique
constraint `uq_task_occurrence`. -/
theorem complete_occurrence_idempotent (db : TasksDB) (tid d now now' : Nat)
    (db1 : TasksDB) (r1 : CompleteResp)
    (h1 : complete_occurrence db tid d now = .ok (db1, r1))
    (hc : countComp db tid d ≤ 1) :
    ∃ r2, complete_occurrence db1 tid d now' = .ok (db1, r2) ∧
      r2.already = true ∧ countComp db1 tid d = 1 := by
  rcases hft : findTask db tid with _ | task
  · simp only [complete_occurrence, hft] at h1
    exact absurd h1 (by simp)
  cases hck : completeCheck task d with
  | error e =>
    simp only [complete_occurrence, hft, hck] at h1
    exact absurd h1 (by simp)
  | ok u =>
    rcases hfc : findCompletion db tid d with _ | c
    · -- first call inserted a fresh completion row
      simp only [complete_occurrence, hft, hck, hfc] at h1
      simp only [Except.ok.injEq, Prod.mk.injEq] at h1
      obtain ⟨hdb1, _⟩ := h1
      have hcomp : (fun c : TaskCompletion =>
          c.task_id == tid && c.occurrence_date == d &&
            c.user_id == DEFAULT_USER_ID)
          (⟨DEFAULT_USER_ID, tid, d, now⟩ : TaskCompletion) = true := by simp
      have hft1 : findTask db1 tid = some task := by rw [← hdb1]; exact hft
      have hfc1 : findCompletion db1 tid d =
          some ⟨DEFAULT_USER_ID, tid, d, now⟩ := by
        rw [← hdb1]
        show (db.completions ++
          [(⟨DEFAULT_USER_ID, tid, d, now⟩ : TaskCompletion)]).find? _ = _
        rw [List.find?_append]
        rw [findCompletion] at hfc
        rw [hfc]
        simp [hcomp]
      have hcount0 : countComp db tid d = 0 :=
        countComp_eq_zero_of_findCompletion_none hfc
      have hcount1 : countComp db1 tid d = 1 := by
        rw [← hdb1]
        show ((db.completions ++
          [(⟨DEFAULT_USER_ID, tid, d, now⟩ : TaskCompletion)]).filter _).length = 1
        rw [List.filter_append]
        rw [countComp] at hcount0
        rw [List.length_append, hcount0]
        simp [hcomp]
      refine ⟨⟨true, tid, d⟩, ?_, rfl, hcount1⟩
      simp only [complete_occurrence, hft1, hck, hfc1]
    · -- the row already existed: the first call was itself a no-op
      simp only [complete_occurrence, hft, hck, hfc] at h1
      simp only [Except.ok.injEq, Prod.mk.injEq] at h1
      obtain ⟨hdb1, _⟩ := h1
      have hcount1 : countComp db tid d = 1 :=
        le_antisymm hc (countComp_pos_of_findCompletion hfc)
      refine ⟨⟨true, tid, d⟩, ?_, rfl, by rw [← hdb1]; exact hcount1⟩
      rw [← hdb1]
      simp only [complete_occurrence, hft, hck, hfc]

/-- Witness for C2: completing the recurring fixture task on day 9 on an
empty completion table succeeds, and the second call reports `already`
with the store unchanged and a single completion row. -/
theorem complete_occurrence_idempotent_witness :
    ∃ r2, complete_occurrence
        ⟨[taskOneOffW, taskRecurringW], [⟨"default", 2, 9, 0⟩]⟩ 2 9 1 =
      .ok (⟨[taskOneOffW, taskRecurringW], [⟨"default", 2, 9, 0⟩]⟩, r2) ∧
      r2.already = true ∧
      countComp ⟨[taskOneOffW, taskRecurringW], [⟨"default", 2, 9, 0⟩]⟩ 2 9 = 1 :=
  complete_occurrence_idempotent dbW 2 9 0 1
    ⟨[taskOneOffW, taskRecurringW], [⟨"default", 2, 9, 0⟩]⟩ ⟨false, 2, 9⟩
    rfl (by decide)

/-- C8: a keyword-search query from which tokenization extracts zero
tokens returns an empty result list, independently of the stored
records. -/
theorem zero_tokens_empty_results (db : List KnowledgeItem) (q : String)
    (limit : Nat) (h : _tokenize q = []) :
    _search_memory db q limit = [] := by
  simp [_search_memory, h]

/-- Witness for C8: the query `"a e o"` tokenizes to nothing and returns
no results over a store that does contain matching text. -/
theorem zero_tokens_empty_results_witness :
    _search_memory [⟨1, "default", "localfs", "2025-01-01/notes.json",
      some "2025-01-01", some "bucket permission error", 7⟩] "a e o" 5 = [] :=
  zero_tokens_empty_results _ "a e o" 5 (by decide)

/-- C4: every window result is sorted by the lexicographic triple
(date ascending, priority ascending, lower-cased title ascending): any
record placed before another has a key `≤` the other's key, so two
records on the same date are ordered by priority, ties by title. -/
theorem window_tasks_sorted (env : RRuleEnv) (db : TasksDB) (s e : Nat)
    (hide_done : Bool) :
    (_window_tasks env db s e hide_done).Pairwise
      (fun a b => sortKey a ≤ sortKey b) := by
  have hs := List.sorted_mergeSort taskLe_trans taskLe_total
    ((db.tasks.filter (oneOffPred s e)).filterMap
        (oneOffOut (doneSet db s e) hide_done) ++
      (db.tasks.filter (recurringPred e)).flatMap
        (recurringOuts env (doneSet db s e) hide_done s e))
  exact hs.imp (fun h => by simpa [taskLe] using h)

/-- C1: every recurring occurrence emitted by the window assembly has a
date inside the inclusive window `[s, e]`; no occurrence dated outside
the window is ever included. -/
theorem recurring_dates_within_window (env : RRuleEnv) (db : TasksDB)
    (s e : Nat) (hide_done : Bool) (r : TaskOut)
    (hmem : r ∈ _window_tasks env db s e hide_done)
    (hkind : r.kind = "recurring") : s ≤ r.date ∧ r.date ≤ e := by
  rw [_window_tasks, List.mem_mergeSort, List.mem_append] at hmem
  rcases hmem with h | h
  · -- rows of the one-off branch carry kind "one_off"
    rw [List.mem_filterMap] at h
    obtain ⟨t, _, hout⟩ := h
    rw [oneOffOut] at hout
    rcases hdue : t.due_date with _ | d
    · simp only [hdue] at hout
      exact absurd hout (by simp)
    · simp only [hdue] at hout
      by_cases hdone : (hide_done &&
          (doneSet db s e).contains (t.id, d)) = true
      · rw [if_pos hdone] at hout
        exact absurd hout (by simp)
      · rw [if_neg hdone] at hout
        simp only [Option.some.injEq] at hout
        rw [← hout] at hkind
        exact absurd hkind (show ("one_off" : String) ≠ "recurring" by decide)
  · rw [List.mem_flatMap] at h
    obtain ⟨t, _, hout⟩ := h
    rw [recurringOuts] at hout
    rcases hrr : t.rrule with _ | rr <;> rcases hsd : t.start_date with _ | sd
    · simp only [hrr, hsd] at hout
      exact absurd hout (by simp)
    · simp only [hrr, hsd] at hout
      exact absurd hout (by simp)
    · simp only [hrr, hsd] at hout
      exact absurd hout (by simp)
    · simp only [hrr, hsd] at hout
      rcases henv : env rr (combineMin sd) with _ | occs
      · simp only [henv] at hout
        exact absurd hout (by simp)
      · simp only [henv] at hout
        rw [List.mem_filterMap] at hout
        obtain ⟨dt, hdt, hfd⟩ := hout
        rw [ruleBetween, List.mem_filter] at hdt
        obtain ⟨-, hdtw⟩ := hdt
        simp only [Bool.and_eq_true, decide_eq_true_eq] at hdtw
        have hwin := dtDate_window hdtw.1 hdtw.2
        by_cases hdone : (hide_done &&
            (doneSet db s e).contains (t.id, dtDate dt)) = true
        · rw [if_pos hdone] at hfd
          exact absurd hfd (by simp)
        · rw [if_neg hdone] at hfd
          simp only [Option.some.injEq] at hfd
          rw [← hfd]
          exact hwin

/-- Witness for C1: with the fixture environment, the recurring fixture
task contributes the occurrence dated day 0 to the window `[0, 1]`, and
that date lies inside the window. -/
theorem recurring_dates_within_window_witness :
    (0 : Nat) ≤ (⟨2, some "default", "water plants", none, "recurring", 0,
        some "FREQ=DAILY", false, 2⟩ : TaskOut).date ∧
      (⟨2, some "default", "water plants", none, "recurring", 0,
        some "FREQ=DAILY", false, 2⟩ : TaskOut).date ≤ 1 :=
  recurring_dates_within_window envW ⟨[taskRecurringW], []⟩ 0 1 false
    ⟨2, some "default", "water plants", none, "recurring", 0,
      some "FREQ=DAILY", false, 2⟩
    (by simp only [_window_tasks, List.mem_mergeSort]; decide) rfl

/-- C5: a malformed recurrence rule on one recurring task never fails the
window request: the failing task contributes nothing and the result is
exactly the result over the store without that task, so every other task
still appears unchanged. -/
theorem malformed_rrule_skipped (env : RRuleEnv) (comps : List TaskCompletion)
    (l1 l2 : List Task) (t : Task) (s e : Nat) (hide_done : Bool) (rr : String)
    (hrr : t.rrule = some rr) (hfail : ∀ dt, env rr dt = none) :
    _window_tasks env ⟨l1 ++ t :: l2, comps⟩ s e hide_done =
      _window_tasks env ⟨l1 ++ l2, comps⟩ s e hide_done := by
  have hone : oneOffPred s e t = false := by
    simp [oneOffPred, hrr]
  have hrec : recurringOuts env (doneSet ⟨l1 ++ l2, comps⟩ s e) hide_done s e t
      = [] := by
    rw [recurringOuts]
    rcases hsd : t.start_date with _ | sd
    · simp [hrr, hsd]
    · simp [hrr, hsd, hfail (combineMin sd)]
  show (((l1 ++ t :: l2).filter (oneOffPred s e)).filterMap
      (oneOffOut (doneSet ⟨l1 ++ l2, comps⟩ s e) hide_done) ++
    ((l1 ++ t :: l2).filter (recurringPred e)).flatMap
      (recurringOuts env (doneSet ⟨l1 ++ l2, comps⟩ s e) hide_done s e)).mergeSort
        taskLe =
    (((l1 ++ l2).filter (oneOffPred s e)).filterMap
      (oneOffOut (doneSet ⟨l1 ++ l2, comps⟩ s e) hide_done) ++
    ((l1 ++ l2).filter (recurringPred e)).flatMap
      (recurringOuts env (doneSet ⟨l1 ++ l2, comps⟩ s e) hide_done s e)).mergeSort
        taskLe
  have e1 : (l1 ++ t :: l2).filter (oneOffPred s e) =
      (l1 ++ l2).filter (oneOffPred s e) := by
    simp [List.filter_append, List.filter_cons, hone]
  have e2 : ((l1 ++ t :: l2).filter (recurringPred e)).flatMap
      (recurringOuts env (doneSet ⟨l1 ++ l2, comps⟩ s e) hide_done s e) =
    ((l1 ++ l2).filter (recurringPred e)).flatMap
      (recurringOuts env (doneSet ⟨l1 ++ l2, comps⟩ s e) hide_done s e) := by
    cases hrp : recurringPred e t
    · simp [List.filter_append, List.filter_cons, hrp]
    · simp [List.filter_append, List.filter_cons, hrp, hrec]
  rw [e1, e2]

/-- Witness for C5: dropping the fixture task with the malformed rule
`NONSENSE` from the store leaves the window result unchanged. -/
theorem malformed_rrule_skipped_witness :
    _window_tasks envW ⟨[taskBadW, taskRecurringW], []⟩ 0 1 false =
      _window_tasks envW ⟨[taskRecurringW], []⟩ 0 1 false :=
  malformed_rrule_skipped envW [] [] [taskRecurringW] taskBadW 0 1 false
    "NONSENSE" rfl (fun _ => rfl)

/-! ## Chunking lemmas -/

theorem dropWhile_ws_eq_self {l : List Char}
    (h : ∀ c ∈ l, c.isWhitespace = false) :
    l.dropWhile Char.isWhitespace = l := by
  cases l with
  | nil => rfl
  | cons c cs => simp [List.dropWhile_cons, h c (List.mem_cons_self c cs)]

theorem wsStrip_eq_self {l : List Char}
    (h : ∀ c ∈ l, c.isWhitespace = false) : wsStrip l = l := by
  rw [wsStrip, dropWhile_ws_eq_self h, dropWhile_ws_eq_self
    (fun c hc => h c (List.mem_reverse.mp hc)), List.reverse_reverse]

theorem wsStrip_eq_nil {l : List Char}
    (h : ∀ c ∈ l, c.isWhitespace = true) : wsStrip l = [] := by
  have h1 : l.dropWhile Char.isWhitespace = [] :=
    List.dropWhile_eq_nil_iff.mpr (fun c hc => h c hc)
  rw [wsStrip, h1]
  rfl

theorem chunkLoop_last (text : List Char) (n cs ov i fuel : Nat)
    (hi : i < n) (hj : n ≤ i + cs) :
    chunkLoop text n cs ov i (fuel + 1) =
      if wsStrip ((text.drop i).take (n - i)) = [] then []
      else [wsStrip ((text.drop i).take (n - i))] := by
  simp only [chunkLoop, if_pos hi, Nat.min_eq_left hj]
  simp

theorem chunkLoop_cont (text : List Char) (n cs ov i fuel : Nat)
    (hj : i + cs < n) :
    chunkLoop text n cs ov i (fuel + 1) =
      if wsStrip ((text.drop i).take cs) = [] then
        chunkLoop text n cs ov (i + cs - ov) fuel
      else wsStrip ((text.drop i).take cs) ::
        chunkLoop text n cs ov (i + cs - ov) fuel := by
  have hi : i < n := by omega
  have hne : ¬ (min n (i + cs) = n) := by
    rw [Nat.min_eq_right (le_of_lt hj)]; omega
  have hnn : ¬ (i + cs = n) := by omega
  simp only [chunkLoop, if_pos hi, Nat.min_eq_right (le_of_lt hj), if_neg hne,
    if_neg hnn]
  have harg : i + cs - i = cs := by omega
  rw [harg]

theorem chunk_text_default_eq (text : List Char) (h : ¬ (wsStrip text = [])) :
    chunk_text text 1100 180 =
      chunkLoop (wsStrip text) (wsStrip text).length 1100 180 0
        ((wsStrip text).length + 1) := by
  rw [chunk_text]
  simp only [if_neg h]
  norm_num
  rfl

/-- C6 counterexample: the claim quantifies over every string of exactly
1100 characters, but `chunk_text` strips the input and each chunk, so the
1100-space string yields zero chunks, not one chunk equal to the input. -/
theorem chunk_text_claim_counterexample :
    chunk_text (List.replicate 1100 ' ') 1100 180 ≠
      [List.replicate 1100 ' '] := by
  have hws : ∀ c ∈ List.replicate 1100 ' ', c.isWhitespace = true := by
    intro c hc
    rw [List.eq_of_mem_replicate hc]
    decide
  have h0 : chunk_text (List.replicate 1100 ' ') 1100 180 = [] := by
    rw [chunk_text, wsStrip_eq_nil hws]
    simp
  rw [h0]
  exact Ne.symm (List.cons_ne_nil _ _)

/-- C6 (amended): for inputs whose characters are all non-whitespace,
`chunk_text` with the default window 1100 / overlap 180 maps a
1100-character string to exactly one chunk equal to the input and a
2000-character string to exactly two chunks whose second starts at
offset 920; empty or whitespace-only input yields zero chunks. -/
theorem chunk_text_default_spec :
    (∀ text : List Char, (∀ c ∈ text, c.isWhitespace = false) →
      text.length = 1100 → chunk_text text 1100 180 = [text]) ∧
    (∀ text : List Char, (∀ c ∈ text, c.isWhitespace = false) →
      text.length = 2000 →
      chunk_text text 1100 180 = [text.take 1100, text.drop 920]) ∧
    (∀ text : List Char, (∀ c ∈ text, c.isWhitespace = true) →
      chunk_text text 1100 180 = []) := by
  refine ⟨?_, ?_, ?_⟩
  · intro text hws hlen
    have hstrip : wsStrip text = text := wsStrip_eq_self hws
    have hne : ¬ (wsStrip text = []) := by
      rw [hstrip]; intro h; rw [h] at hlen; simp at hlen
    rw [chunk_text_default_eq text hne, hstrip, hlen]
    rw [chunkLoop_last text 1100 1100 180 0 1100 (by omega) (by omega)]
    have htake : (text.drop 0).take (1100 - 0) = text := by
      rw [List.drop_zero, Nat.sub_zero, ← hlen, List.take_length]
    rw [htake, hstrip]
    rw [if_neg (by intro h; rw [h] at hlen; simp at hlen)]
  · intro text hws hlen
    have hstrip : wsStrip text = text := wsStrip_eq_self hws
    have hne : ¬ (wsStrip text = []) := by
      rw [hstrip]; intro h; rw [h] at hlen; simp at hlen
    rw [chunk_text_default_eq text hne, hstrip, hlen]
    rw [chunkLoop_cont text 2000 1100 180 0 2000 (by omega)]
    have htake1 : (text.drop 0).take 1100 = text.take 1100 := by
      rw [List.drop_zero]
    have hs1 : wsStrip (text.take 1100) = text.take 1100 :=
      wsStrip_eq_self (fun c hc => hws c (List.take_subset _ _ hc))
    have hne1 : ¬ (text.take 1100 = []) := by
      intro h
      have := congrArg List.length h
      rw [List.length_take, hlen] at this
      simp at this
    rw [htake1, hs1, if_neg hne1]
    have hidx : 0 + 1100 - 180 = 920 := by omega
    rw [hidx]
    have h2000 : (2000 : Nat) = 1999 + 1 := by omega
    rw [h2000, chunkLoop_last text 2000 1100 180 920 1999 (by omega) (by omega)]
    have htake2 : (text.drop 920).take (2000 - 920) = text.drop 920 := by
      have hlen2 : (text.drop 920).length = 1080 := by
        rw [List.length_drop, hlen]
      rw [show (2000 : Nat) - 920 = 1080 by omega, ← hlen2, List.take_length]
    have hs2 : wsStrip (text.drop 920) = text.drop 920 :=
      wsStrip_eq_self (fun c hc => hws c (List.drop_subset _ _ hc))
    rw [htake2, hs2]
    have hne2 : ¬ (text.drop 920 = []) := by
      intro h
      have := congrArg List.length h
      rw [List.length_drop, hlen] at this
      simp at this
    rw [if_neg hne2]
  · intro text hws
    rw [chunk_text, wsStrip_eq_nil hws]
    simp

/-- Witness for the amended C6 at concrete inputs: 1100 letters give one
chunk equal to the input, 2000 letters give the two expected chunks, and
a whitespace-only string gives zero chunks. -/
theorem chunk_text_default_spec_witness :
    chunk_text (List.replicate 1100 'a') 1100 180 =
        [List.replicate 1100 'a'] ∧
    chunk_text (List.replicate 2000 'b') 1100 180 =
        [(List.replicate 2000 'b').take 1100,
         (List.replicate 2000 'b').drop 920] ∧
    chunk_text (List.replicate 3 ' ') 1100 180 = [] :=
  ⟨chunk_text_default_spec.1 _
    (fun c hc => by rw [List.eq_of_mem_replicate hc]; decide)
    (List.length_replicate 1100 'a'),
   chunk_text_default_spec.2.1 _
    (fun c hc => by rw [List.eq_of_mem_replicate hc]; decide)
    (List.length_replicate 2000 'b'),
   chunk_text_default_spec.2.2 _
    (fun c hc => by rw [List.eq_of_mem_replicate hc]; decide)⟩

/-! ## Context assembler lemmas -/

theorem contextPieces_greedy (mc : Nat) :
    ∀ (items : List KnowledgeItem) (total : Nat),
    ∃ k, k ≤ items.length ∧
      contextPieces mc items total = (items.take k).map pieceOf ∧
      (0 < k → total +
        ((items.take k).map (fun it => (pieceOf it).length)).sum ≤ mc) ∧
      (∀ it, (items.drop k).head? = some it →
        mc < total +
          ((items.take k).map (fun it => (pieceOf it).length)).sum +
          (pieceOf it).length) := by
  intro items
  induction items with
  | nil =>
    intro total
    refine ⟨0, Nat.le_refl 0, rfl, fun h => absurd h (by omega), ?_⟩
    intro it hit
    simp at hit
  | cons it rest ih =>
    intro total
    by_cases hov : mc < total + (pieceOf it).length
    · refine ⟨0, by omega, ?_, fun h => absurd h (by omega), ?_⟩
      · rw [contextPieces, if_pos hov]
        rfl
      · intro it' hit'
        simp only [List.drop_zero, List.head?_cons, Option.some.injEq] at hit'
        rw [← hit']
        simpa using hov
    · obtain ⟨k', hk'le, heq, hsum, hstop⟩ := ih (total + (pieceOf it).length)
      refine ⟨k' + 1, by simpa using hk'le, ?_, ?_, ?_⟩
      · rw [contextPieces, if_neg hov, heq]
        rfl
      · intro _
        rcases Nat.eq_zero_or_pos k' with hk0 | hkpos
        · subst hk0
          simp only [List.take_succ_cons, List.take_zero, List.map_cons,
            List.map_nil, List.sum_cons, List.sum_nil]
          omega
        · have := hsum hkpos
          simp only [List.take_succ_cons, List.map_cons, List.sum_cons]
          omega
      · intro it' hit'
        rw [List.drop_succ_cons] at hit'
        have := hstop it' hit'
        simp only [List.take_succ_cons, List.map_cons, List.sum_cons]
        omega

/-- C7: `_build_context_block` emits exactly the pieces (source header
followed by the stripped first 2000 characters of the body) of a greedy
prefix of the records: the included pieces fit the budget, the first
record whose piece would overflow it is excluded entirely, and no later
record is added. -/
theorem build_context_block_greedy (items : List KnowledgeItem)
    (max_chars : Nat) :
    ∃ k, k ≤ items.length ∧
      _build_context_block items max_chars =
        stripS (String.intercalate "\n---\n" ((items.take k).map pieceOf)) ∧
      ((items.take k).map (fun it => (pieceOf it).length)).sum ≤ max_chars ∧
      (∀ it, (items.drop k).head? = some it →
        max_chars <
          ((items.take k).map (fun it => (pieceOf it).length)).sum +
          (pieceOf it).length) := by
  obtain ⟨k, hkle, heq, hsum, hstop⟩ := contextPieces_greedy max_chars items 0
  refine ⟨k, hkle, ?_, ?_, ?_⟩
  · rw [_build_context_block, heq]
  · rcases Nat.eq_zero_or_pos k with hk0 | hkpos
    · subst hk0
      simp
    · have := hsum hkpos
      omega
  · intro it hit
    have := hstop it hit
    omega

end Assistant
